import Mathlib

/-!
# dankcurses: the panelreel demo callbacks and the metric formatter

A shallow embedding of

* `src/bin/panelreel.c`: `kill_tablet`, `tabletup`, `tabletdown`, `tabletdraw`;
* `src/lib/enmetric.c`: `enmetric`.

C `int` values are embedded as `Int`; the embedding agrees with the C program wherever the C
arithmetic does not overflow, which is the case for screen coordinates and line counts.
`uintmax_t` values are embedded as `Nat`, with the one multiplication that could wrap taken
modulo `2 ^ 64`.  The curses window is an abstract text grid that records what was drawn on it.
The mutex operations of `tabletdraw` have no effect on a sequential run and are left out.
-/

namespace Dankcurses

/-! ## The drawing surface -/

/-- A character cell stored by `wadd_wch`: its row and column, the number that
`swprintf(cchbuf, 2, L"%x", v)` rendered into the character, and the colour pair handed to
`setcchar`. -/
structure Cell where
  y : Int
  x : Int
  glyph : Int
  cpair : Int
deriving DecidableEq, Repr

/-- A formatted line stored by `mvwprintw`: the row and column it starts at, and its text. -/
structure Print where
  y : Int
  x : Int
  text : String
deriving DecidableEq, Repr

/-- The curses window as a drawing surface: the cursor, the current colour pair, and the cells
and formatted lines drawn so far, oldest first. -/
structure WINDOW where
  cury : Int
  curx : Int
  pair : Int
  cells : List Cell
  prints : List Print
deriving DecidableEq, Repr

/-- A window on which nothing has been drawn. -/
def WINDOW.blank : WINDOW := ⟨0, 0, 0, [], []⟩

/-- The curses status for success. -/
def OK : Int := 0

/-- The colour pair defined by `outcurses.h`. -/
def COLOR_BRIGHTWHITE : Int := 16

/-- The curses call `wmove(w, y, x)`: place the cursor. -/
def wmove (w : WINDOW) (y x : Int) : WINDOW :=
  { w with cury := y, curx := x }

/-- The curses call `wadd_wch(w, &cch)`: store the character at the cursor and advance the cursor
by one column. -/
def wadd_wch (w : WINDOW) (glyph cpair : Int) : WINDOW :=
  { w with cells := w.cells ++ [⟨w.cury, w.curx, glyph, cpair⟩], curx := w.curx + 1 }

/-- The curses call `wattr_set(w, A_NORMAL, 0, &pair)`: select the colour pair. -/
def wattr_set (w : WINDOW) (pair : Int) : WINDOW :=
  { w with pair := pair }

/-- The curses call `mvwprintw(w, y, x, ...)`: move to `(y, x)` and store the formatted text. -/
def mvwprintw (w : WINDOW) (y x : Int) (text : String) : WINDOW :=
  { w with cury := y, curx := x + text.length, prints := w.prints ++ [⟨y, x, text⟩] }

/-! ## `src/bin/panelreel.c` -/

/-- The demo's per-tablet record `struct tabletctx`; thread, reel and tablet are handles, and the
`next` link is the position in the list of contexts. -/
structure tabletctx where
  tid : Nat
  pr : Nat
  t : Nat
  lines : Int
  cpair : Int
  id : Nat
deriving DecidableEq, Repr

/-- What `kill_tablet` does, in program order. -/
inductive Action where
  | pthread_cancel (tid : Nat)
  | pthread_join (tid : Nat)
  | warning (text : String)
  | panelreel_del (pr t : Nat)
  | set_head (successor : List tabletctx)
  | pthread_mutex_destroy (ctx : tabletctx)
  | free (ctx : tabletctx)
deriving DecidableEq, Repr

/-- The function `kill_tablet(tabletctx** tctx)`.  `cancel_rc` and `join_rc` are the values that
`pthread_cancel` and `pthread_join` return.  The result is the new list of contexts and the
actions performed. -/
def kill_tablet (cancel_rc join_rc : Int) (tctx : List tabletctx) :
    List tabletctx × List Action :=
  match tctx with
  | [] => ([], [])
  | t :: next =>
    let log := [Action.pthread_cancel t.tid]
    let log := if cancel_rc ≠ 0 then
        log ++ [Action.warning "Warning: error sending pthread_cancel"] else log
    let log := log ++ [Action.pthread_join t.tid]
    let log := if join_rc ≠ 0 then
        log ++ [Action.warning "Warning: error joining pthread"] else log
    let log := log ++ [Action.panelreel_del t.pr t.t]
    let log := log ++ [Action.set_head next]
    let log := log ++ [Action.pthread_mutex_destroy t]
    let log := log ++ [Action.free t]
    (next, log)

/-- The inner loop of `tabletup` and `tabletdown`:
`for(x = begx ; x <= maxx ; ++x){ wadd_wch(w, &cch); }`. -/
def rowloop (w : WINDOW) (glyph cpair : Int) (x maxx : Int) : WINDOW :=
  if x ≤ maxx then rowloop (wadd_wch w glyph cpair) glyph cpair (x + 1) maxx else w
termination_by (maxx + 1 - x).toNat
decreasing_by omega

/-- The outer loop of `tabletup`, `for(y = maxy ; y >= begy ; --y, ++cpair)`, from the state
`(w, y, idx, cpair)`; the result is the window and the final `idx`. -/
def tabletup_loop (begx begy maxx : Int) (w : WINDOW) (y idx cpair : Int) : WINDOW × Int :=
  if begy ≤ y then
    let w := wmove w y begx
    let w := rowloop w (Int.tmod idx 16) cpair begx maxx
    let idx := idx - 1
    if idx = 0 then (w, idx)
    else tabletup_loop begx begy maxx w (y - 1) idx (cpair + 1)
  else (w, idx)
termination_by (y + 1 - begy).toNat
decreasing_by omega

/-- The function `tabletup`: draw bottom-up; the result is the window and the returned count. -/
def tabletup (w : WINDOW) (begx begy maxx maxy : Int) (tctx : tabletctx) (cpair : Int) :
    WINDOW × Int :=
  let idx := tctx.lines
  let maxy := if maxy - begy > tctx.lines then maxy - (maxy - begy - tctx.lines) else maxy
  let r := tabletup_loop begx begy maxx w maxy idx cpair
  (r.1, tctx.lines - r.2)

/-- The loop of `tabletdown`, `for(y = begy ; y <= maxy ; ++y, ++cpair)`, from the state
`(w, y, cpair)`; the result is the window and the final `y`. -/
def tabletdown_loop (begx begy maxx maxy : Int) (tctx : tabletctx) (w : WINDOW) (y cpair : Int) :
    WINDOW × Int :=
  if y ≤ maxy then
    if y - begy ≥ tctx.lines then (w, y)
    else
      let w := wmove w y begx
      let w := rowloop w (Int.tmod y 16) cpair begx maxx
      tabletdown_loop begx begy maxx maxy tctx w (y + 1) (cpair + 1)
  else (w, y)
termination_by (maxy + 1 - y).toNat
decreasing_by omega

/-- The function `tabletdown`: draw top-down; the result is the window and the returned count. -/
def tabletdown (w : WINDOW) (begx begy maxx maxy : Int) (tctx : tabletctx) (cpair : Int) :
    WINDOW × Int :=
  let r := tabletdown_loop begx begy maxx maxy tctx w begy cpair
  (r.1, r.2 - begy)

/-- Modelled from the spec: `struct tablet`, which `outcurses.h` only declares; a tablet owns an
opaque user payload and a drawing sub-region, here the demo's context and its window. -/
structure tablet where
  userptr : tabletctx
  panel : WINDOW
deriving DecidableEq, Repr

/-- Modelled from the spec: `tablet_userptr`, declared in `outcurses.h`: the user payload. -/
def tablet_userptr (t : tablet) : tabletctx := t.userptr

/-- Modelled from the spec: `tablet_panel` followed by the curses `panel_window`: the tablet's
drawing sub-region. -/
def tablet_panel (t : tablet) : WINDOW := t.panel

/-- The `printf` conversion `%u` applied to an `int`. -/
def fmt_u (v : Int) : String := Nat.repr (v % 4294967296).toNat

/-- The `printf` conversion `%d`. -/
def fmt_d (v : Int) : String := if v < 0 then "-" ++ Nat.repr v.natAbs else Nat.repr v.natAbs

/-- The text of the summary header, `"[#%u %d line%s %u/%u] "`. -/
def summary_text (tctx : tabletctx) (begy maxy : Int) : String :=
  "[#" ++ Nat.repr (tctx.id % 4294967296) ++ " " ++ fmt_d tctx.lines ++ " line" ++
    (if tctx.lines = 1 then "" else "s") ++ " " ++ fmt_u begy ++ "/" ++ fmt_u maxy ++ "] "

/-- The row `summaryy` that `tabletdraw` computes for its summary header from the callback
result `ll`. -/
def summaryy (begy maxy : Int) (cliptop : Bool) (ll : Int) : Int :=
  if cliptop then
    if ll = maxy - begy + 1 then ll - 1 else ll
  else begy

/-- The function `tabletdraw`.  `print_rc` is the value that `mvwprintw` returns.  The result is
the window and the returned `ll`, or `none` when `assert(OK == err)` fails. -/
def tabletdraw (print_rc : Int) (t : tablet) (begx begy maxx maxy : Int) (cliptop : Bool) :
    Option (WINDOW × Int) :=
  let err := OK
  let tctx := tablet_userptr t
  let w := tablet_panel t
  let cpair := tctx.cpair
  let r := if cliptop then tabletup w begx begy maxx maxy tctx cpair
           else tabletdown w begx begy maxx maxy tctx cpair
  let w := r.1
  let ll := r.2
  let cpair := COLOR_BRIGHTWHITE
  let w := wattr_set w cpair
  let r := if ll ≠ 0 then
      (mvwprintw w (summaryy begy maxy cliptop ll) begx (summary_text tctx begy maxy),
        Int.lor err print_rc)
    else (w, err)
  if OK = r.2 then some (r.1, ll) else none

/-! ## `src/lib/enmetric.c` -/

/-- The largest value of `uintmax_t`. -/
def UINTMAX_MAX : Nat := 2 ^ 64 - 1

/-- The array `prefixes`, with its terminating NUL. -/
def prefixes : List Char := ['K', 'M', 'G', 'T', 'P', 'E', 'Z', 'Y', Char.ofNat 0]

/-- The call `strlen(prefixes)`. -/
def strlen_prefixes : Nat := 8

/-- The `while` loop of `enmetric`, from the state `(dv, consumed)`. -/
def enmetric_loop (val decimal mult : Nat) (dv consumed : Nat) : Nat × Nat :=
  if val / decimal ≥ dv ∧ consumed < strlen_prefixes then
    let dv := (dv * mult) % 2 ^ 64
    let consumed := consumed + 1
    if UINTMAX_MAX / dv < mult then (dv, consumed)
    else enmetric_loop val decimal mult dv consumed
  else (dv, consumed)
termination_by strlen_prefixes - consumed
decreasing_by
  simp_wf
  omega

/-- The `printf` conversion `%ju`. -/
def fmt_ju (v : Nat) : String := Nat.repr v

/-- The `printf` conversion `%02ju`: at least two digits, padded with a zero. -/
def fmt_02ju (v : Nat) : String := if v < 10 then "0" ++ Nat.repr v else Nat.repr v

/-- The function `enmetric`; the result is the text left in `buf`, or `none` for `NULL`. -/
def enmetric (val : Nat) (decimal : Nat) (omitdec : Int) (mult : Nat) ( uprefix : Int) :
    Option String :=
  if decimal = 0 ∨ mult = 0 then none
  else
    let r := enmetric_loop val decimal mult mult 0
    let dv := r.1
    let consumed := r.2
    if dv ≠ mult then
      let consumed := if val / dv > 0 then consumed + 1 else consumed
      let dv := if val / dv > 0 then dv else dv / mult
      let val := val / decimal
      let c := String.singleton (prefixes.getD (consumed - 1) (Char.ofNat 0))
      let buf :=
        if omitdec ≠ 0 ∧ val % dv = 0 then
          fmt_ju (val / dv) ++ c
        else
          let remain := if dv = mult then (val % dv) * 100 / dv
                        else ((val % dv) / mult * 100) / (dv / mult)
          fmt_ju (val / dv) ++ "." ++ fmt_02ju remain ++ c
      if uprefix ≠ 0 then some (buf ++ String.singleton (Char.ofNat ( uprefix % 256).toNat))
      else some buf
    else
      if omitdec ≠ 0 ∧ val % decimal = 0 then
        some (fmt_ju (val / decimal))
      else
        let divider := (if decimal > mult then decimal / mult else 1) * 10
        let remain := (val % decimal) / divider
        some (fmt_ju (val / decimal) ++ "." ++ fmt_02ju remain)

/-! ## Auxiliary definitions used to state the results -/

/-- The cells of one drawn row: columns `begx..maxx` of row `y`. -/
def rowcells (y begx maxx glyph cpair : Int) : List Cell :=
  (List.range (maxx + 1 - begx).toNat).map fun (j : Nat) => ⟨y, begx + (j : Int), glyph, cpair⟩

/-- The number of rows the loop of `tabletup` draws from the state `(y, idx)`. -/
def upcount (begy y idx : Int) : Nat :=
  if 1 ≤ idx then min idx.toNat (y + 1 - begy).toNat else (y + 1 - begy).toNat

/-- The cells `tabletup` draws in `n` rows from the state `(y, idx, cpair)`. -/
def upcells (begx maxx y idx cpair : Int) (n : Nat) : List Cell :=
  (List.range n).flatMap fun (i : Nat) =>
    rowcells (y - (i : Int)) begx maxx (Int.tmod (idx - (i : Int)) 16) (cpair + (i : Int))

/-- The number of rows the loop of `tabletdown` draws from row `y`. -/
def downcount (begy maxy lines y : Int) : Nat :=
  (min (maxy + 1) (begy + lines) - y).toNat

/-- The cells `tabletdown` draws in `n` rows from the state `(y, cpair)`. -/
def downcells (begx maxx y cpair : Int) (n : Nat) : List Cell :=
  (List.range n).flatMap fun (i : Nat) =>
    rowcells (y + (i : Int)) begx maxx (Int.tmod (y + (i : Int)) 16) (cpair + (i : Int))

/-- The row from which `tabletup` starts drawing, after its adjustment of `maxy`. -/
def upstart (begy maxy lines : Int) : Int :=
  if maxy - begy > lines then maxy - (maxy - begy - lines) else maxy

/-- The cells drawn on the window between the states `w` and `w1`. -/
def drawn (w w1 : WINDOW) : List Cell :=
  w1.cells.drop w.cells.length

/-- The rows that hold at least one of the cells, without repetition. -/
def rows_of (cs : List Cell) : List Int :=
  (cs.map Cell.y).dedup

/-- The result of the drawing function that `tabletdraw` selects by `cliptop`. -/
def content (t : tablet) (begx begy maxx maxy : Int) (cliptop : Bool) : WINDOW × Int :=
  if cliptop then
    tabletup (tablet_panel t) begx begy maxx maxy (tablet_userptr t) (tablet_userptr t).cpair
  else
    tabletdown (tablet_panel t) begx begy maxx maxy (tablet_userptr t) (tablet_userptr t).cpair

/-- The two characters that show a number below one hundred with two decimal digits. -/
def two_digits (r : Nat) : String :=
  String.mk [Nat.digitChar (r / 10), Nat.digitChar (r % 10)]

/-- Whether the action is a diagnostic written to `stderr`. -/
def Action.is_warning : Action → Bool
  | Action.warning _ => true
  | _ => false

/-- The actions other than diagnostics, in program order. -/
def effects (log : List Action) : List Action :=
  log.filter fun a => !a.is_warning

/-! ## Closed forms of the loops -/

theorem rowloop_eq (w : WINDOW) (glyph cpair x maxx : Int) :
    rowloop w glyph cpair x maxx =
      { w with
        cells := w.cells ++ (List.range (maxx + 1 - x).toNat).map
          fun (j : Nat) => ⟨w.cury, w.curx + (j : Int), glyph, cpair⟩
        curx := w.curx + ((maxx + 1 - x).toNat : Int) } := by
  induction w, glyph, cpair, x, maxx using rowloop.induct with
  | case1 w glyph cpair x maxx h ih =>
    rw [rowloop, if_pos h, ih]
    obtain ⟨n, hn⟩ : ∃ n : Nat, (maxx + 1 - (x + 1)).toNat = n := ⟨_, rfl⟩
    have hn1 : (maxx + 1 - x).toNat = n + 1 := by omega
    rw [hn, hn1, List.range_succ_eq_map]
    simp [wadd_wch, List.map_map, Function.comp_def]
    refine ⟨by omega, ?_⟩
    intro a _
    omega
  | case2 w glyph cpair x maxx h =>
    rw [rowloop, if_neg h]
    have : (maxx + 1 - x).toNat = 0 := by omega
    simp [this]

theorem rowloop_wmove (w : WINDOW) (glyph cpair y begx maxx : Int) :
    rowloop (wmove w y begx) glyph cpair begx maxx =
      { w with
        cells := w.cells ++ rowcells y begx maxx glyph cpair
        cury := y
        curx := begx + ((maxx + 1 - begx).toNat : Int) } := by
  rw [rowloop_eq]
  simp [wmove, rowcells]

theorem upcells_succ (begx maxx y idx cpair : Int) (n : Nat) :
    upcells begx maxx y idx cpair (n + 1) =
      rowcells y begx maxx (Int.tmod idx 16) cpair ++ upcells begx maxx (y - 1) (idx - 1) (cpair + 1) n := by
  unfold upcells
  rw [List.range_succ_eq_map, List.flatMap_cons, List.flatMap_map]
  simp only [Nat.cast_zero, sub_zero, add_zero, Nat.succ_eq_add_one, Nat.cast_add, Nat.cast_one]
  congr 2
  funext i
  congr 1 <;> ring_nf

theorem tabletup_loop_eq (begx begy maxx : Int) (w : WINDOW) (y idx cpair : Int) :
    (tabletup_loop begx begy maxx w y idx cpair).1.cells =
        w.cells ++ upcells begx maxx y idx cpair (upcount begy y idx) ∧
      (tabletup_loop begx begy maxx w y idx cpair).1.prints = w.prints ∧
      (tabletup_loop begx begy maxx w y idx cpair).1.pair = w.pair ∧
      (tabletup_loop begx begy maxx w y idx cpair).2 = idx - (upcount begy y idx : Int) := by
  induction w, y, idx, cpair using tabletup_loop.induct begx begy maxx with
  | case1 w y idx cpair h idx1 h0 =>
    have hn : upcount begy y idx = 1 := by
      unfold upcount
      have : idx = 1 := by omega
      subst this
      have : (y + 1 - begy).toNat ≥ 1 := by omega
      simp
      omega
    rw [tabletup_loop, if_pos h]
    simp only [show idx - 1 = 0 from h0, if_true, hn, rowloop_wmove, upcells_succ]
    simp [upcells]
    omega
  | case2 w y idx cpair h w1 w2 idx1 h0 ih =>
    have hn : upcount begy y idx = upcount begy (y - 1) (idx - 1) + 1 := by
      unfold upcount
      have h0 : idx - 1 ≠ 0 := h0
      split_ifs <;> omega
    rw [tabletup_loop, if_pos h]
    simp only [show ¬ (idx - 1 = 0) from h0, if_false, hn, upcells_succ]
    obtain ⟨ih1, ih2, ih3, ih4⟩ := ih
    refine ⟨?_, ?_, ?_, ?_⟩
    · rw [ih1]
      simp only [w2, w1, rowloop_wmove, List.append_assoc]
    · rw [ih2]
      simp only [w2, w1, rowloop_wmove]
    · rw [ih3]
      simp only [w2, w1, rowloop_wmove]
    · rw [ih4]
      push_cast
      ring
  | case3 w y idx cpair h =>
    have hn : upcount begy y idx = 0 := by
      unfold upcount
      split_ifs <;> omega
    rw [tabletup_loop, if_neg h, hn]
    simp [upcells]

theorem downcells_succ (begx maxx y cpair : Int) (n : Nat) :
    downcells begx maxx y cpair (n + 1) =
      rowcells y begx maxx (Int.tmod y 16) cpair ++ downcells begx maxx (y + 1) (cpair + 1) n := by
  unfold downcells
  rw [List.range_succ_eq_map, List.flatMap_cons, List.flatMap_map]
  simp only [Nat.cast_zero, add_zero, Nat.succ_eq_add_one, Nat.cast_add, Nat.cast_one]
  congr 2
  funext i
  congr 1 <;> ring_nf

theorem tabletdown_loop_eq (begx begy maxx maxy : Int) (tctx : tabletctx) (w : WINDOW)
    (y cpair : Int) :
    (tabletdown_loop begx begy maxx maxy tctx w y cpair).1.cells =
        w.cells ++ downcells begx maxx y cpair (downcount begy maxy tctx.lines y) ∧
      (tabletdown_loop begx begy maxx maxy tctx w y cpair).1.prints = w.prints ∧
      (tabletdown_loop begx begy maxx maxy tctx w y cpair).1.pair = w.pair ∧
      (tabletdown_loop begx begy maxx maxy tctx w y cpair).2 =
        y + (downcount begy maxy tctx.lines y : Int) := by
  induction w, y, cpair using tabletdown_loop.induct begx begy maxx maxy tctx with
  | case1 w y cpair h hl =>
    have hn : downcount begy maxy tctx.lines y = 0 := by
      unfold downcount
      omega
    rw [tabletdown_loop, if_pos h, if_pos hl, hn]
    simp [downcells]
  | case2 w y cpair h hl w1 w2 ih =>
    have hn : downcount begy maxy tctx.lines y = downcount begy maxy tctx.lines (y + 1) + 1 := by
      unfold downcount
      omega
    rw [tabletdown_loop, if_pos h, if_neg hl]
    simp only [hn, downcells_succ]
    obtain ⟨ih1, ih2, ih3, ih4⟩ := ih
    refine ⟨?_, ?_, ?_, ?_⟩
    · rw [ih1]
      simp only [w2, w1, rowloop_wmove, List.append_assoc]
    · rw [ih2]
      simp only [w2, w1, rowloop_wmove]
    · rw [ih3]
      simp only [w2, w1, rowloop_wmove]
    · rw [ih4]
      push_cast
      ring
  | case3 w y cpair h =>
    have hn : downcount begy maxy tctx.lines y = 0 := by
      unfold downcount
      omega
    rw [tabletdown_loop, if_neg h, hn]
    simp [downcells]

theorem tabletup_eq (w : WINDOW) (begx begy maxx maxy : Int) (tctx : tabletctx) (cpair : Int) :
    (tabletup w begx begy maxx maxy tctx cpair).1.cells =
        w.cells ++ upcells begx maxx (upstart begy maxy tctx.lines) tctx.lines cpair
          (upcount begy (upstart begy maxy tctx.lines) tctx.lines) ∧
      (tabletup w begx begy maxx maxy tctx cpair).1.prints = w.prints ∧
      (tabletup w begx begy maxx maxy tctx cpair).2 =
        (upcount begy (upstart begy maxy tctx.lines) tctx.lines : Int) := by
  obtain ⟨h1, h2, _, h4⟩ := tabletup_loop_eq begx begy maxx w
    (upstart begy maxy tctx.lines) tctx.lines cpair
  refine ⟨h1, h2, ?_⟩
  show tctx.lines - (tabletup_loop begx begy maxx w
    (upstart begy maxy tctx.lines) tctx.lines cpair).2 = _
  rw [h4]
  ring

theorem tabletdown_eq (w : WINDOW) (begx begy maxx maxy : Int) (tctx : tabletctx) (cpair : Int) :
    (tabletdown w begx begy maxx maxy tctx cpair).1.cells =
        w.cells ++ downcells begx maxx begy cpair (downcount begy maxy tctx.lines begy) ∧
      (tabletdown w begx begy maxx maxy tctx cpair).1.prints = w.prints ∧
      (tabletdown w begx begy maxx maxy tctx cpair).2 =
        (downcount begy maxy tctx.lines begy : Int) := by
  obtain ⟨h1, h2, _, h4⟩ := tabletdown_loop_eq begx begy maxx maxy tctx w begy cpair
  refine ⟨h1, h2, ?_⟩
  show (tabletdown_loop begx begy maxx maxy tctx w begy cpair).2 - begy = _
  rw [h4]
  ring

theorem mem_rowcells (c : Cell) (y begx maxx glyph cpair : Int) :
    c ∈ rowcells y begx maxx glyph cpair ↔
      c.y = y ∧ begx ≤ c.x ∧ c.x ≤ maxx ∧ c.glyph = glyph ∧ c.cpair = cpair := by
  unfold rowcells
  simp only [List.mem_map, List.mem_range]
  constructor
  · rintro ⟨j, hj, rfl⟩
    refine ⟨rfl, ?_, ?_, rfl, rfl⟩
    · show begx ≤ begx + (j : Int)
      omega
    · show begx + (j : Int) ≤ maxx
      omega
  · rintro ⟨h1, h2, h3, h4, h5⟩
    refine ⟨(c.x - begx).toNat, by omega, ?_⟩
    obtain ⟨cy, cx, cg, cc⟩ := c
    simp only at h1 h2 h3 h4 h5
    subst h1 h4 h5
    have : begx + ((cx - begx).toNat : Int) = cx := by omega
    show (⟨cy, begx + ((cx - begx).toNat : Int), cg, cc⟩ : Cell) = ⟨cy, cx, cg, cc⟩
    rw [this]

theorem mem_upcells (c : Cell) (begx maxx y idx cpair : Int) (n : Nat) :
    c ∈ upcells begx maxx y idx cpair n ↔
      y - n < c.y ∧ c.y ≤ y ∧ begx ≤ c.x ∧ c.x ≤ maxx ∧
        c.glyph = Int.tmod (idx - (y - c.y)) 16 ∧ c.cpair = cpair + (y - c.y) := by
  unfold upcells
  simp only [List.mem_flatMap, List.mem_range, mem_rowcells]
  constructor
  · rintro ⟨i, hi, h1, h2, h3, h4, h5⟩
    have : y - c.y = i := by omega
    rw [this]
    exact ⟨by omega, by omega, h2, h3, h4, h5⟩
  · rintro ⟨h1, h2, h3, h4, h5, h6⟩
    refine ⟨(y - c.y).toNat, by omega, ?_⟩
    have : ((y - c.y).toNat : Int) = y - c.y := by omega
    rw [this]
    exact ⟨by omega, h3, h4, h5, h6⟩

theorem mem_downcells (c : Cell) (begx maxx y cpair : Int) (n : Nat) :
    c ∈ downcells begx maxx y cpair n ↔
      y ≤ c.y ∧ c.y < y + n ∧ begx ≤ c.x ∧ c.x ≤ maxx ∧
        c.glyph = Int.tmod c.y 16 ∧ c.cpair = cpair + (c.y - y) := by
  unfold downcells
  simp only [List.mem_flatMap, List.mem_range, mem_rowcells]
  constructor
  · rintro ⟨i, hi, h1, h2, h3, h4, h5⟩
    have : c.y - y = i := by omega
    rw [this, h1]
    exact ⟨by omega, by omega, h2, h3, h1 ▸ h4, h5⟩
  · rintro ⟨h1, h2, h3, h4, h5, h6⟩
    refine ⟨(c.y - y).toNat, by omega, ?_⟩
    have : ((c.y - y).toNat : Int) = c.y - y := by omega
    rw [this]
    have : y + (c.y - y) = c.y := by ring
    rw [this]
    exact ⟨rfl, h3, h4, h5, h6⟩

/-! ## The drawing functions -/

theorem drawn_tabletup (w : WINDOW) (begx begy maxx maxy : Int) (tctx : tabletctx) (cpair : Int) :
    drawn w (tabletup w begx begy maxx maxy tctx cpair).1 =
      upcells begx maxx (upstart begy maxy tctx.lines) tctx.lines cpair
        (upcount begy (upstart begy maxy tctx.lines) tctx.lines) := by
  unfold drawn
  rw [(tabletup_eq w begx begy maxx maxy tctx cpair).1, List.drop_left]

theorem drawn_tabletdown (w : WINDOW) (begx begy maxx maxy : Int) (tctx : tabletctx)
    (cpair : Int) :
    drawn w (tabletdown w begx begy maxx maxy tctx cpair).1 =
      downcells begx maxx begy cpair (downcount begy maxy tctx.lines begy) := by
  unfold drawn
  rw [(tabletdown_eq w begx begy maxx maxy tctx cpair).1, List.drop_left]

theorem rows_of_upcells (begx maxx y idx cpair : Int) (n : Nat) (hx : begx ≤ maxx) :
    (rows_of (upcells begx maxx y idx cpair n)).length = n := by
  unfold rows_of
  rw [← List.card_toFinset]
  have : (List.map Cell.y (upcells begx maxx y idx cpair n)).toFinset =
      Finset.Icc (y - n + 1) y := by
    ext r
    simp only [List.mem_toFinset, List.mem_map, mem_upcells, Finset.mem_Icc]
    constructor
    · rintro ⟨c, ⟨h1, h2, -⟩, rfl⟩
      omega
    · rintro ⟨h1, h2⟩
      exact ⟨⟨r, begx, Int.tmod (idx - (y - r)) 16, cpair + (y - r)⟩,
        ⟨by show y - (n : Int) < r; omega, h2, le_refl _, hx, rfl, rfl⟩, rfl⟩
  rw [this, Int.card_Icc]
  omega

theorem rows_of_downcells (begx maxx y cpair : Int) (n : Nat) (hx : begx ≤ maxx) :
    (rows_of (downcells begx maxx y cpair n)).length = n := by
  unfold rows_of
  rw [← List.card_toFinset]
  have : (List.map Cell.y (downcells begx maxx y cpair n)).toFinset =
      Finset.Icc y (y + n - 1) := by
    ext r
    simp only [List.mem_toFinset, List.mem_map, mem_downcells, Finset.mem_Icc]
    constructor
    · rintro ⟨c, ⟨h1, h2, -⟩, rfl⟩
      omega
    · rintro ⟨h1, h2⟩
      exact ⟨⟨r, begx, Int.tmod r 16, cpair + (r - y)⟩,
        ⟨h1, by show r < y + (n : Int); omega, le_refl _, hx, rfl, rfl⟩, rfl⟩
  rw [this, Int.card_Icc]
  omega

theorem tabletdraw_eq (print_rc : Int) (t : tablet) (begx begy maxx maxy : Int)
    (cliptop : Bool) :
    tabletdraw print_rc t begx begy maxx maxy cliptop =
      if (content t begx begy maxx maxy cliptop).2 ≠ 0 then
        if OK = Int.lor OK print_rc then
          some (mvwprintw (wattr_set (content t begx begy maxx maxy cliptop).1 COLOR_BRIGHTWHITE)
              (summaryy begy maxy cliptop (content t begx begy maxx maxy cliptop).2) begx
              (summary_text (tablet_userptr t) begy maxy),
            (content t begx begy maxx maxy cliptop).2)
        else none
      else
        some (wattr_set (content t begx begy maxx maxy cliptop).1 COLOR_BRIGHTWHITE,
          (content t begx begy maxx maxy cliptop).2) := by
  unfold tabletdraw content
  cases cliptop <;> simp only [Bool.false_eq_true, if_false, if_true] <;> split_ifs <;> simp_all

theorem content_bounds (t : tablet) (begx begy maxx maxy : Int) (cliptop : Bool)
    (hm : begy ≤ maxy) :
    0 ≤ (content t begx begy maxx maxy cliptop).2 ∧
      (content t begx begy maxx maxy cliptop).2 ≤ maxy - begy + 1 := by
  unfold content
  cases cliptop
  · simp only [Bool.false_eq_true, if_false]
    rw [(tabletdown_eq _ begx begy maxx maxy _ _).2.2]
    unfold downcount
    omega
  · simp only [if_true]
    rw [(tabletup_eq _ begx begy maxx maxy _ _).2.2]
    unfold upcount upstart
    split_ifs <;> omega

/-! ## The metric formatter -/

theorem enmetric_loop_unfold (val mult dv consumed : Nat) :
    enmetric_loop val 1 mult dv consumed =
      if dv ≤ val ∧ consumed < 8 then
        if (2 ^ 64 - 1) / (dv * mult % 2 ^ 64) < mult then (dv * mult % 2 ^ 64, consumed + 1)
        else enmetric_loop val 1 mult (dv * mult % 2 ^ 64) (consumed + 1)
      else (dv, consumed) := by
  rw [enmetric_loop]
  simp only [Nat.div_one, strlen_prefixes, UINTMAX_MAX, ge_iff_le]

theorem enmetric_loop_1000 (val : Nat) :
    enmetric_loop val 1 1000 1000 0 =
      if val < 1000 then (1000, 0)
      else if val < 1000000 then (1000000, 1)
      else if val < 1000000000 then (1000000000, 2)
      else if val < 1000000000000 then (1000000000000, 3)
      else if val < 1000000000000000 then (1000000000000000, 4)
      else (1000000000000000000, 5) := by
  simp [enmetric_loop_unfold]
  split_ifs <;> first | rfl | omega

theorem enmetric_loop_1024 (val : Nat) :
    enmetric_loop val 1 1024 1024 0 =
      if val < 1024 then (1024, 0)
      else if val < 1048576 then (1048576, 1)
      else if val < 1073741824 then (1073741824, 2)
      else if val < 1099511627776 then (1099511627776, 3)
      else if val < 1125899906842624 then (1125899906842624, 4)
      else (1152921504606846976, 5) := by
  simp [enmetric_loop_unfold]
  split_ifs <;> first | rfl | omega

theorem fmt_02ju_eq (r : Nat) (h : r < 100) : fmt_02ju r = two_digits r := by
  interval_cases r <;> rfl

theorem enmetric_of_loop (val M : Nat) (omitdec : Int) (D k : Nat) (hM : M ≠ 0) (hD : 0 < D)
    (hlo : D ≤ val)
    (h : (enmetric_loop val 1 M M 0 = (D * M, k) ∧ D ≠ 1 ∧ val < D * M) ∨
      (enmetric_loop val 1 M M 0 = (D, k - 1) ∧ D ≠ M ∧ 1 ≤ k)) :
    enmetric val 1 omitdec M 0 = some (
      if omitdec ≠ 0 ∧ val % D = 0 then
        fmt_ju (val / D) ++ String.singleton (prefixes.getD (k - 1) (Char.ofNat 0))
      else
        fmt_ju (val / D) ++ "." ++
          fmt_02ju (if D = M then (val % D) * 100 / D else ((val % D) / M * 100) / (D / M)) ++
          String.singleton (prefixes.getD (k - 1) (Char.ofNat 0))) := by
  have hpos : 0 < val / D := Nat.div_pos hlo hD
  unfold enmetric
  rcases h with ⟨hl, hD1, hhi⟩ | ⟨hl, hDM, hk⟩
  · have h0 : val / (D * M) = 0 := Nat.div_eq_of_lt hhi
    have hne : D * M ≠ M := by
      intro h
      apply hD1
      have : D * M = 1 * M := by omega
      exact Nat.eq_of_mul_eq_mul_right (Nat.pos_of_ne_zero hM) this
    have hdiv : D * M / M = D := Nat.mul_div_cancel _ (Nat.pos_of_ne_zero hM)
    simp only [hl, hM, one_ne_zero, or_self, if_false, ne_eq, hne, not_false_eq_true, if_true,
      h0, gt_iff_lt, lt_self_iff_false, hdiv, Nat.div_one, not_true_eq_false]
  · have hk' : k - 1 + 1 = k := by omega
    simp only [hl, hM, one_ne_zero, or_self, if_false, ne_eq, hDM, not_false_eq_true, if_true,
      gt_iff_lt, hpos, Nat.div_one, hk', not_true_eq_false]

theorem enmetric_loop_pow (val mult k : Nat) (hm : mult = 1000 ∨ mult = 1024) (hk1 : 1 ≤ k)
    (hk5 : k ≤ 5) (h1 : mult ^ k ≤ val) (h2 : val < mult ^ (k + 1)) :
    enmetric_loop val 1 mult mult 0 = (mult ^ k * mult, k) := by
  rcases hm with rfl | rfl
  · rw [enmetric_loop_1000]
    interval_cases k <;> norm_num at h1 h2 ⊢ <;> split_ifs <;> first | rfl | omega
  · rw [enmetric_loop_1024]
    interval_cases k <;> norm_num at h1 h2 ⊢ <;> split_ifs <;> first | rfl | omega

theorem enmetric_loop_top (val mult : Nat) (hm : mult = 1000 ∨ mult = 1024)
    (h1 : mult ^ 6 ≤ val) :
    enmetric_loop val 1 mult mult 0 = (mult ^ 6, 5) := by
  rcases hm with rfl | rfl
  · rw [enmetric_loop_1000]
    norm_num at h1 ⊢
    split_ifs <;> first | rfl | omega
  · rw [enmetric_loop_1024]
    norm_num at h1 ⊢
    split_ifs <;> first | rfl | omega

theorem enmetric_loop_small (val mult : Nat) (hm : mult = 1000 ∨ mult = 1024)
    (h1 : val < mult) :
    enmetric_loop val 1 mult mult 0 = (mult, 0) := by
  rcases hm with rfl | rfl
  · rw [enmetric_loop_1000, if_pos h1]
  · rw [enmetric_loop_1024, if_pos h1]

theorem remain_lt (val mult k : Nat) (hm : 0 < mult) (hk : 1 ≤ k) :
    (if mult ^ k = mult then (val % mult ^ k) * 100 / mult ^ k
      else ((val % mult ^ k) / mult * 100) / (mult ^ k / mult)) < 100 := by
  have hD : 0 < mult ^ k := Nat.pow_pos hm
  have hlt : val % mult ^ k < mult ^ k := Nat.mod_lt _ hD
  split_ifs with h
  · rw [Nat.div_lt_iff_lt_mul hD]
    omega
  · obtain ⟨j, rfl⟩ : ∃ j, k = j + 1 := ⟨k - 1, by omega⟩
    have hE : 0 < mult ^ j := Nat.pow_pos hm
    have hdiv : mult ^ (j + 1) / mult = mult ^ j := by
      rw [pow_succ, Nat.mul_div_cancel _ hm]
    rw [hdiv, Nat.div_lt_iff_lt_mul hE]
    have : val % mult ^ (j + 1) / mult < mult ^ j := by
      rw [Nat.div_lt_iff_lt_mul hm, ← pow_succ]
      exact hlt
    omega

theorem prefixes_letter (k : Nat) (hk1 : 1 ≤ k) (hk8 : k ≤ 8) :
    "KMGTPEZY".toList[k - 1]? = some (prefixes.getD (k - 1) (Char.ofNat 0)) := by
  interval_cases k <;> rfl

/-! ## Results -/

/-- C1: for a context with `lines ≥ 0`, a region with `0 ≤ begy ≤ maxy` and `begx ≤ maxx`, and
both values of `cliptop`, `tabletdraw` returns (its header is stored with status `OK`) the value
`ll` of `tabletup` or `tabletdown`, and `0 ≤ ll ≤ maxy - begy + 1`; whatever status the header
write reports, a returned value lies in that range. -/
theorem tabletdraw_returns_within_height (t : tablet) (begx begy maxx maxy : Int)
    (cliptop : Bool) (_hl : 0 ≤ (tablet_userptr t).lines) (_hb : 0 ≤ begy) (hm : begy ≤ maxy)
    (_hx : begx ≤ maxx) :
    (∃ r, tabletdraw OK t begx begy maxx maxy cliptop = some r ∧
        r.2 = (content t begx begy maxx maxy cliptop).2 ∧
        0 ≤ r.2 ∧ r.2 ≤ maxy - begy + 1) ∧
      ∀ print_rc r, tabletdraw print_rc t begx begy maxx maxy cliptop = some r →
        0 ≤ r.2 ∧ r.2 ≤ maxy - begy + 1 := by
  have hc := content_bounds t begx begy maxx maxy cliptop hm
  constructor
  · rw [tabletdraw_eq]
    have : OK = Int.lor OK OK := by decide
    split_ifs
    · exact ⟨_, rfl, rfl, hc⟩
    · exact ⟨_, rfl, rfl, hc⟩
  · intro print_rc r hr
    rw [tabletdraw_eq] at hr
    split_ifs at hr <;> simp only [Option.some.injEq] at hr <;> subst hr <;> exact hc

/-- Witness for C1: a tablet of three lines drawn bottom-up in the rows `0..4`. -/
theorem tabletdraw_returns_within_height_witness :
    ∃ r, tabletdraw OK ⟨⟨1, 1, 1, 3, 7, 1⟩, WINDOW.blank⟩ 0 0 9 4 true = some r ∧
      r.2 = (content ⟨⟨1, 1, 1, 3, 7, 1⟩, WINDOW.blank⟩ 0 0 9 4 true).2 ∧
      0 ≤ r.2 ∧ r.2 ≤ 4 - 0 + 1 :=
  (tabletdraw_returns_within_height ⟨⟨1, 1, 1, 3, 7, 1⟩, WINDOW.blank⟩ 0 0 9 4 true
    (by decide) (by decide) (by decide) (by decide)).1

/-- C2: when `tabletup` is given at least as many lines as the region `begy..maxy` has rows, it
returns the region height and draws, from row `maxy` up to row `begy`, every column
`begx..maxx` of every row; row `y` shows content line `lines - (maxy - y)` modulo 16, so the
last line is on row `maxy` and the lines `1 .. lines - h` are the ones left out. -/
theorem tabletup_clipped_draws_last_lines (w : WINDOW) (begx begy maxx maxy : Int)
    (tctx : tabletctx) (cpair : Int) (hh : 1 ≤ maxy - begy + 1)
    (hl : maxy - begy + 1 ≤ tctx.lines) :
    (tabletup w begx begy maxx maxy tctx cpair).2 = maxy - begy + 1 ∧
      drawn w (tabletup w begx begy maxx maxy tctx cpair).1 =
        (List.range (maxy - begy + 1).toNat).flatMap (fun (i : Nat) =>
          (List.range (maxx + 1 - begx).toNat).map (fun (j : Nat) =>
            (⟨maxy - i, begx + j, (tctx.lines - i) % 16, cpair + i⟩ : Cell))) ∧
      ∀ c : Cell, c ∈ drawn w (tabletup w begx begy maxx maxy tctx cpair).1 ↔
        begy ≤ c.y ∧ c.y ≤ maxy ∧ begx ≤ c.x ∧ c.x ≤ maxx ∧
          c.glyph = (tctx.lines - (maxy - c.y)) % 16 ∧ c.cpair = cpair + (maxy - c.y) := by
  have hs : upstart begy maxy tctx.lines = maxy := by
    unfold upstart
    split_ifs <;> omega
  have hn : upcount begy maxy tctx.lines = (maxy - begy + 1).toNat := by
    unfold upcount
    split_ifs <;> omega
  refine ⟨?_, ?_, ?_⟩
  · rw [(tabletup_eq w begx begy maxx maxy tctx cpair).2.2, hs, hn]
    omega
  · rw [drawn_tabletup, hs, hn]
    unfold upcells rowcells
    apply List.flatMap_congr
    intro i hi
    rw [List.mem_range] at hi
    rw [Int.tmod_eq_emod (by omega) (by decide)]
  · intro c
    rw [drawn_tabletup, hs, hn, mem_upcells]
    constructor
    · rintro ⟨h1, h2, h3, h4, h5, h6⟩
      rw [Int.tmod_eq_emod (by omega) (by decide)] at h5
      exact ⟨by omega, h2, h3, h4, h5, h6⟩
    · rintro ⟨h1, h2, h3, h4, h5, h6⟩
      rw [Int.tmod_eq_emod (by omega) (by decide)]
      exact ⟨by omega, h2, h3, h4, h5, h6⟩

/-- Witness for C2: twelve lines in the three rows `2..4`. -/
theorem tabletup_clipped_draws_last_lines_witness :
    (tabletup WINDOW.blank 0 2 1 4 ⟨1, 1, 1, 12, 7, 1⟩ 7).2 = 4 - 2 + 1 ∧
      drawn WINDOW.blank (tabletup WINDOW.blank 0 2 1 4 ⟨1, 1, 1, 12, 7, 1⟩ 7).1 =
        (List.range ((4 : Int) - 2 + 1).toNat).flatMap (fun (i : Nat) =>
          (List.range ((1 : Int) + 1 - 0).toNat).map (fun (j : Nat) =>
            (⟨4 - i, 0 + j, ((12 : Int) - i) % 16, 7 + i⟩ : Cell))) :=
  ⟨(tabletup_clipped_draws_last_lines WINDOW.blank 0 2 1 4 ⟨1, 1, 1, 12, 7, 1⟩ 7
      (by decide) (by decide)).1,
    (tabletup_clipped_draws_last_lines WINDOW.blank 0 2 1 4 ⟨1, 1, 1, 12, 7, 1⟩ 7
      (by decide) (by decide)).2.1⟩

/-- C7, as stated, fails on a region without columns: with `begx = 3`, `maxx = 2`, two lines and
the rows `0..4`, `tabletup` and `tabletdown` both return `2 = min 2 5`, yet neither draws a cell,
so the number of distinct rows drawn is `0`, not the returned value. -/
theorem tabletup_tabletdown_no_columns_no_rows :
    (tabletup WINDOW.blank 3 0 2 4 ⟨1, 1, 1, 2, 7, 1⟩ 7).2 = 2 ∧
      (tabletdown WINDOW.blank 3 0 2 4 ⟨1, 1, 1, 2, 7, 1⟩ 7).2 = 2 ∧
      (rows_of (drawn WINDOW.blank
        (tabletup WINDOW.blank 3 0 2 4 ⟨1, 1, 1, 2, 7, 1⟩ 7).1)).length = 0 ∧
      (rows_of (drawn WINDOW.blank
        (tabletdown WINDOW.blank 3 0 2 4 ⟨1, 1, 1, 2, 7, 1⟩ 7).1)).length = 0 ∧
      ¬ (((rows_of (drawn WINDOW.blank
          (tabletup WINDOW.blank 3 0 2 4 ⟨1, 1, 1, 2, 7, 1⟩ 7).1)).length : Int) =
        (tabletup WINDOW.blank 3 0 2 4 ⟨1, 1, 1, 2, 7, 1⟩ 7).2) := by
  simp [tabletup, tabletup_loop, tabletdown, tabletdown_loop, rowloop, wmove, drawn, rows_of,
    WINDOW.blank]

/-- C7, amended: for `lines ≥ 1` and a region of height `h = maxy - begy + 1 ≥ 1`, `tabletup`
and `tabletdown` both return `min lines h`, whatever the clip direction; and when the region
has at least one column (`begx ≤ maxx`), each function draws in exactly as many distinct rows
as it returns. -/
theorem tabletup_tabletdown_same_height (w : WINDOW) (begx begy maxx maxy : Int)
    (tctx : tabletctx) (cpair : Int) (hl : 1 ≤ tctx.lines) (hh : 1 ≤ maxy - begy + 1) :
    (tabletup w begx begy maxx maxy tctx cpair).2 = min tctx.lines (maxy - begy + 1) ∧
      (tabletdown w begx begy maxx maxy tctx cpair).2 = min tctx.lines (maxy - begy + 1) ∧
      (begx ≤ maxx →
        ((rows_of (drawn w (tabletup w begx begy maxx maxy tctx cpair).1)).length : Int) =
            (tabletup w begx begy maxx maxy tctx cpair).2 ∧
          ((rows_of (drawn w (tabletdown w begx begy maxx maxy tctx cpair).1)).length : Int) =
            (tabletdown w begx begy maxx maxy tctx cpair).2) := by
  refine ⟨?_, ?_, fun hx => ⟨?_, ?_⟩⟩
  · rw [(tabletup_eq w begx begy maxx maxy tctx cpair).2.2]
    unfold upcount upstart
    split_ifs <;> omega
  · rw [(tabletdown_eq w begx begy maxx maxy tctx cpair).2.2]
    unfold downcount
    omega
  · rw [drawn_tabletup, rows_of_upcells _ _ _ _ _ _ hx,
      (tabletup_eq w begx begy maxx maxy tctx cpair).2.2]
  · rw [drawn_tabletdown, rows_of_downcells _ _ _ _ _ hx,
      (tabletdown_eq w begx begy maxx maxy tctx cpair).2.2]

/-- Witness for C7, amended: two lines in the five rows `1..5`, four columns wide. -/
theorem tabletup_tabletdown_same_height_witness :
    (tabletup WINDOW.blank 0 1 3 5 ⟨1, 1, 1, 2, 7, 1⟩ 7).2 = min 2 (5 - 1 + 1) ∧
      (tabletdown WINDOW.blank 0 1 3 5 ⟨1, 1, 1, 2, 7, 1⟩ 7).2 = min 2 (5 - 1 + 1) ∧
      ((rows_of (drawn WINDOW.blank
          (tabletup WINDOW.blank 0 1 3 5 ⟨1, 1, 1, 2, 7, 1⟩ 7).1)).length : Int) =
        (tabletup WINDOW.blank 0 1 3 5 ⟨1, 1, 1, 2, 7, 1⟩ 7).2 ∧
      ((rows_of (drawn WINDOW.blank
          (tabletdown WINDOW.blank 0 1 3 5 ⟨1, 1, 1, 2, 7, 1⟩ 7).1)).length : Int) =
        (tabletdown WINDOW.blank 0 1 3 5 ⟨1, 1, 1, 2, 7, 1⟩ 7).2 :=
  ⟨(tabletup_tabletdown_same_height WINDOW.blank 0 1 3 5 ⟨1, 1, 1, 2, 7, 1⟩ 7
      (by decide) (by decide)).1,
    (tabletup_tabletdown_same_height WINDOW.blank 0 1 3 5 ⟨1, 1, 1, 2, 7, 1⟩ 7
      (by decide) (by decide)).2.1,
    (tabletup_tabletdown_same_height WINDOW.blank 0 1 3 5 ⟨1, 1, 1, 2, 7, 1⟩ 7
      (by decide) (by decide)).2.2 (by decide)⟩


/-- C9: with `decimal = 1`, `mult` 1000 or 1024, no unit prefix and a 64-bit `val`: for
`val < mult`, `enmetric` writes `val` unscaled, with no suffix letter (followed by `.00` unless
`omitdec` is set); for `val ≥ mult` and `k` the largest integer with `mult ^ k ≤ val`, `k` is
between 1 and 6 and `enmetric` writes `val / mult ^ k`, which lies in `[1, mult - 1]`, then,
unless `omitdec` is set and `mult ^ k` divides `val`, a point and exactly two decimal digits,
then the `k`-th letter of `KMGTPEZY`. -/
theorem enmetric_scaled_output (val mult : Nat) (omitdec : Int)
    (hm : mult = 1000 ∨ mult = 1024) (hv : val < 2 ^ 64) :
    (val < mult →
      enmetric val 1 omitdec mult 0 =
        some (if omitdec ≠ 0 then Nat.repr val else Nat.repr val ++ ".00")) ∧
    ∀ k, mult ≤ val → mult ^ k ≤ val → val < mult ^ (k + 1) →
      1 ≤ k ∧ k ≤ 6 ∧ 1 ≤ val / mult ^ k ∧ val / mult ^ k ≤ mult - 1 ∧
      ∃ r c, r < 100 ∧ "KMGTPEZY".toList[k - 1]? = some c ∧
        enmetric val 1 omitdec mult 0 = some (
          if omitdec ≠ 0 ∧ val % mult ^ k = 0 then
            Nat.repr (val / mult ^ k) ++ String.singleton c
          else
            Nat.repr (val / mult ^ k) ++ "." ++ two_digits r ++ String.singleton c) := by
  have hmpos : 0 < mult := by rcases hm with rfl | rfl <;> decide
  have hm7 : 2 ^ 64 < mult ^ 7 := by rcases hm with rfl | rfl <;> norm_num
  constructor
  · intro hlt
    have hne : mult ≠ 0 := by omega
    have h1 : ¬ (1 > mult) := by omega
    unfold enmetric
    simp only [enmetric_loop_small val mult hm hlt, one_ne_zero, hne, or_self, if_false,
      ne_eq, not_true_eq_false, Nat.mod_one, Nat.div_one, and_true, h1, Nat.zero_div]
    split_ifs
    · show some (Nat.repr val ++ "." ++ "00") = some (Nat.repr val ++ ".00")
      rw [String.append_assoc]
      rfl
    · rfl
  · intro k hge hk1 hk2
    have hk6 : k ≤ 6 := by
      by_contra hcon
      have : mult ^ 7 ≤ mult ^ k := Nat.pow_le_pow_right hmpos (by omega)
      omega
    have hk0 : 1 ≤ k := by
      by_contra hcon
      have : k = 0 := by omega
      subst this
      simp only [zero_add, pow_one] at hk2
      omega
    have hD : 0 < mult ^ k := Nat.pow_pos hmpos
    have hq1 : 1 ≤ val / mult ^ k := Nat.div_pos hk1 hD
    have hq2 : val / mult ^ k < mult := by
      rw [Nat.div_lt_iff_lt_mul hD, Nat.mul_comm, ← pow_succ]
      exact hk2
    refine ⟨hk0, hk6, hq1, by omega, _, _, remain_lt val mult k hmpos hk0,
      prefixes_letter k hk0 (by omega), ?_⟩
    rw [enmetric_of_loop val mult omitdec (mult ^ k) k (by omega) hD hk1, fmt_02ju_eq _
      (remain_lt val mult k hmpos hk0)]
    · rfl
    · by_cases h5 : k ≤ 5
      · left
        refine ⟨enmetric_loop_pow val mult k hm hk0 h5 hk1 hk2, ?_, ?_⟩
        · have : mult ^ 1 ≤ mult ^ k := Nat.pow_le_pow_right hmpos hk0
          rcases hm with rfl | rfl <;> omega
        · rw [← pow_succ]
          exact hk2
      · right
        have : k = 6 := by omega
        subst this
        refine ⟨enmetric_loop_top val mult hm hk1, ?_, by decide⟩
        rcases hm with rfl | rfl <;> norm_num

/-- Witness for C9: 1536 with multiplier 1024, where `k = 1`. -/
theorem enmetric_scaled_output_witness :
    1 ≤ 1 ∧ 1 ≤ 6 ∧ 1 ≤ 1536 / 1024 ^ 1 ∧ 1536 / 1024 ^ 1 ≤ 1024 - 1 ∧
      ∃ r c, r < 100 ∧ "KMGTPEZY".toList[1 - 1]? = some c ∧
        enmetric 1536 1 0 1024 0 = some (
          if (0 : Int) ≠ 0 ∧ 1536 % 1024 ^ 1 = 0 then
            Nat.repr (1536 / 1024 ^ 1) ++ String.singleton c
          else
            Nat.repr (1536 / 1024 ^ 1) ++ "." ++ two_digits r ++ String.singleton c) :=
  (enmetric_scaled_output 1536 1024 0 (Or.inr rfl) (by norm_num)).2 1
    (by decide) (by decide) (by decide)


/-- C6: on a non-empty list `kill_tablet` cancels the head's thread, joins it, deletes the head's
tablet from the reel, only then makes the head's successor the new head, and finally destroys
the mutex and frees the context, whatever the two thread calls return; on an empty list it does
nothing and leaves the list empty. -/
theorem kill_tablet_cancel_join_before_del (cancel_rc join_rc : Int) (t : tabletctx)
    (next : List tabletctx) :
    (kill_tablet cancel_rc join_rc (t :: next)).1 = next ∧
      effects (kill_tablet cancel_rc join_rc (t :: next)).2 =
        [Action.pthread_cancel t.tid, Action.pthread_join t.tid,
          Action.panelreel_del t.pr t.t, Action.set_head next,
          Action.pthread_mutex_destroy t, Action.free t] ∧
      kill_tablet cancel_rc join_rc [] = ([], []) := by
  refine ⟨rfl, ?_, rfl⟩
  unfold kill_tablet effects
  split_ifs <;> rfl

/-- C3, at a failing input: a tablet of five lines drawn bottom-up in the region of rows `1..2`
fills the region (`ll = 2 = maxy - begy + 1`) and gets its summary header on row `1 = ll - 1`,
not on row `begy + ll - 1 = 2`. -/
theorem tabletdraw_clipped_header_row_omits_begy :
    (tabletdraw OK ⟨⟨1, 1, 1, 5, 7, 1⟩, WINDOW.blank⟩ 0 1 1 2 true).map
      (fun r => (r.2, r.1.prints.map Print.y)) = some (2, [1]) := by
  simp [tabletdraw, tabletup, tabletup_loop, rowloop, wmove, wadd_wch, wattr_set, mvwprintw,
    tablet_userptr, tablet_panel, WINDOW.blank, summaryy, OK, COLOR_BRIGHTWHITE]
  decide

/-- C4, at a failing input: a tablet of two lines drawn bottom-up in the region of rows `3..4`
has its content on rows `4` and `3`, and its summary header on row `1`, above the region. -/
theorem tabletdraw_clipped_header_outside_region :
    (tabletdraw OK ⟨⟨1, 1, 1, 2, 7, 1⟩, WINDOW.blank⟩ 0 3 1 4 true).map
      (fun r => (r.1.cells.map Cell.y, r.1.prints.map Print.y)) = some ([4, 4, 3, 3], [1]) := by
  simp [tabletdraw, tabletup, tabletup_loop, rowloop, wmove, wadd_wch, wattr_set, mvwprintw,
    tablet_userptr, tablet_panel, WINDOW.blank, summaryy, OK, COLOR_BRIGHTWHITE]
  decide

/-- C5, at a failing input: for a tablet of four lines and `begy = 0`, `maxy = 3`, `tabletdraw`
returns `4` in either direction, which exceeds `maxy - begy = 3`. -/
theorem tabletdraw_returns_above_header_bound :
    (tabletdraw OK ⟨⟨1, 1, 1, 4, 7, 1⟩, WINDOW.blank⟩ 0 0 1 3 false).map Prod.snd = some 4 ∧
      (tabletdraw OK ⟨⟨1, 1, 1, 4, 7, 1⟩, WINDOW.blank⟩ 0 0 1 3 true).map Prod.snd = some 4 := by
  constructor
  · simp [tabletdraw, tabletdown, tabletdown_loop, rowloop, wmove, wadd_wch, wattr_set,
      mvwprintw, tablet_userptr, tablet_panel, WINDOW.blank, summaryy, OK, COLOR_BRIGHTWHITE]
    decide
  · simp [tabletdraw, tabletup, tabletup_loop, rowloop, wmove, wadd_wch, wattr_set, mvwprintw,
      tablet_userptr, tablet_panel, WINDOW.blank, summaryy, OK, COLOR_BRIGHTWHITE]
    decide

/-- C8, at a failing input: a tablet of two lines drawn bottom-up in the region of rows `0..5`
is drawn on rows `2` and `1`; row `0`, the first row of the region, stays unused. -/
theorem tabletup_short_skips_first_row :
    (tabletup WINDOW.blank 0 0 1 5 ⟨1, 1, 1, 2, 7, 1⟩ 7).2 = 2 ∧
      (tabletup WINDOW.blank 0 0 1 5 ⟨1, 1, 1, 2, 7, 1⟩ 7).1.cells.map Cell.y = [2, 2, 1, 1] := by
  simp [tabletup, tabletup_loop, rowloop, wmove, wadd_wch, WINDOW.blank]

end Dankcurses
